import Mathlib

/-!
Shallow embedding of the linked-list core of the eoos-library repository
(`library.AbstractLinkedList.hpp`, `library.LinkedList.hpp`).

The node class `library.LinkedNode` is included by the list headers but its
file is not among the available sources.  Modelled from the spec: nodes form
a circular doubly linked ring anchored at `last_`; each node carries an
`index` equal to its ordinal position in traversal order from the logical
head (the node after `last_`), maintained as `0..n-1` by
`insertAfter`/`insertBefore` and by node destruction.  A ring is therefore
represented by the list of its elements in traversal order, and a node of
the ring by its position in that list.  `int32` values are modelled as
unbounded `Int` (no claim exercises wrap-around).
-/

namespace Eoos

/-- State of an `AbstractLinkedList`/`LinkedList` object: the construction
flag of the `Object` base, the node ring as its traversal-order element
list, the change counter `count_` and the sentinel `illegal_`. -/
structure LList (T : Type) where
  constructed : Bool
  elems : List T
  count : Int
  illegal : T
deriving Repr, DecidableEq

/-- A freshly constructed list (either constructor): empty ring, counter 0. -/
def mkLinkedList {T : Type} (illegal : T) : LList T :=
  { constructed := true, elems := [], count := 0, illegal := illegal }

namespace LList

variable {T : Type} [DecidableEq T]

/-- `getLength()`: `last_ == NULL ? 0 : last_->getIndex() + 1`; the index of
`last_` is the position of the final entry, i.e. `elems.length - 1`. -/
def getLength (l : LList T) : Int :=
  match l.elems with
  | [] => 0
  | _ :: _ => ((l.elems.length : Int) - 1) + 1

/-- `isIndex(index)`: bounds test `0 <= index && index < getLength()`. -/
def isIndex (l : LList T) (index : Int) : Bool :=
  decide (0 ≤ index ∧ index < l.getLength)

/-- `isIndexOutOfBounds(index)`: `index < 0 || index > getLength()`. -/
def isIndexOutOfBounds (l : LList T) (index : Int) : Bool :=
  decide (index < 0 ∨ l.getLength < index)

/-- `getNodeByIndex(index)`: `NULL` when `isIndex` fails; otherwise the walk
from the head (`last_->getNext()`) for `index` steps (with the `last_`
shortcut for `index == getLength() - 1`) reaches the node at position
`index` of the traversal order. -/
def getNodeByIndex (l : LList T) (index : Int) : Option Nat :=
  if l.isIndex index then some index.toNat else none

/-- Scan loop of `getNodeByElement`: position of the first ring node whose
element equals the argument (the source loop skips while
`element != node->getElement()`). -/
def findNodeIdx (e : T) : List T → Option Nat
  | [] => none
  | x :: xs => if e = x then some 0 else (findNodeIdx e xs).map (fun n => n + 1)

/-- `getNodeByElement(element)`: `NULL` for the empty ring, else the first
matching node of the head-first scan over all `getLength()` nodes. -/
def getNodeByElement (l : LList T) (e : T) : Option Nat :=
  if l.getLength = 0 then none else findNodeIdx e l.elems

/-- `addNode(index, element)`.  `allocOk` models whether `new Node(element)`
yields a constructed node; `insertAfter`/`insertBefore` splice the node at
the position and renumber the following indices, so the ring list gains `e`
at position `index` (`List.insertIdx`).  The `after == last_` reassignment
of `last_` is implicit: it is exactly the case `index = getLength()`, where
the new node becomes the final entry of the traversal order. -/
def addNode (l : LList T) (allocOk : Bool) (index : Int) (e : T) : LList T × Bool :=
  if l.isIndexOutOfBounds index then (l, false)
  else if allocOk = false then (l, false)
  else
    match l.elems with
    | [] => ({ l with elems := [e], count := l.count + 1 }, true)
    | _ :: _ =>
      if 0 < index then
        match l.getNodeByIndex (index - 1) with
        | none => (l, false)
        | some _ =>
          ({ l with elems := l.elems.insertIdx index.toNat e, count := l.count + 1 }, true)
      else
        match l.getNodeByIndex 0 with
        | none => (l, false)
        | some _ =>
          ({ l with elems := l.elems.insertIdx index.toNat e, count := l.count + 1 }, true)

/-- `removeNode(node)`: `false` for `NULL`; otherwise the node is unlinked
(its destruction relinks the neighbours and renumbers the following
indices), the `last_` reassignment being implicit in erasing the position,
and `count_` is incremented. -/
def removeNode (l : LList T) (node : Option Nat) : LList T × Bool :=
  match node with
  | none => (l, false)
  | some p => ({ l with elems := l.elems.eraseIdx p, count := l.count + 1 }, true)

/-- `add(element)`: `addNode(getLength(), element)` on a constructed object. -/
def add (l : LList T) (allocOk : Bool) (e : T) : LList T × Bool :=
  if l.constructed then l.addNode allocOk l.getLength e else (l, false)

/-- `add(index, element)` (the two-argument overload). -/
def addAt (l : LList T) (allocOk : Bool) (index : Int) (e : T) : LList T × Bool :=
  if l.constructed then l.addNode allocOk index e else (l, false)

/-- `remove(index)`: `removeNode(getNodeByIndex(index))` when constructed. -/
def remove (l : LList T) (index : Int) : LList T × Bool :=
  if l.constructed then l.removeNode (l.getNodeByIndex index) else (l, false)

/-- `removeElement(element)`: `removeNode(getNodeByElement(element))`. -/
def removeElement (l : LList T) (e : T) : LList T × Bool :=
  if l.constructed then l.removeNode (l.getNodeByElement e) else (l, false)

/-- `removeFirst()`: `remove(0)`. -/
def removeFirst (l : LList T) : LList T × Bool :=
  l.remove 0

/-- `removeLast()`: `remove(getLength() - 1)`. -/
def removeLast (l : LList T) : LList T × Bool :=
  l.remove (l.getLength - 1)

/-- `remove()` (queue head removal): `remove(0)`. -/
def removeHead (l : LList T) : LList T × Bool :=
  l.remove 0

/-- `get(index)`: the illegal sentinel on an unconstructed object or a
failed node lookup, else the element of the found node. -/
def get (l : LList T) (index : Int) : T :=
  if l.constructed = false then l.illegal
  else
    match l.getNodeByIndex index with
    | none => l.illegal
    | some p => l.elems.getD p l.illegal

/-- `getFirst()`: `get(0)`. -/
def getFirst (l : LList T) : T :=
  l.get 0

/-- `getLast()`: `get(getLength() - 1)`. -/
def getLast (l : LList T) : T :=
  l.get (l.getLength - 1)

/-- `peek()`: `get(0)`. -/
def peek (l : LList T) : T :=
  l.get 0

/-- `getIndexOf(element)`: the found node's index, `-1` when absent. -/
def getIndexOf (l : LList T) (e : T) : Int :=
  match l.getNodeByElement e with
  | none => -1
  | some p => (p : Int)

end LList

/-- `LinkedList::Iterator` state: the private counter copy `count_.self`
(the reference `count_.list` reads the list state's `count`), the cursor
node `curs_` as its position in traversal order (`none` models the `NULL`
pointer), and the last-returned index `rindex_`. -/
structure Iterator (T : Type) where
  countSelf : Int
  curs : Option Nat
  rindex : Int
deriving Repr, DecidableEq

/-- `Iterator::ILLEGAL_INDEX`. -/
def ILLEGAL_INDEX : Int := -1

/-- `LinkedList::getListIterator(index)`: `NULL` when the list is not
constructed or `construct` rejects the index; otherwise a fresh iterator
whose counter copy equals the list counter, with cursor
`getNodeByIndex(index)` (`NULL` exactly at `index == getLength()`) and an
invalid `rindex_` (allocation of the iterator object is assumed to
succeed). -/
def getListIterator {T : Type} [DecidableEq T] (l : LList T) (index : Int) :
    Option (Iterator T) :=
  if l.constructed = false then none
  else if l.isIndexOutOfBounds index then none
  else some { countSelf := l.count, curs := l.getNodeByIndex index, rindex := ILLEGAL_INDEX }

namespace Iterator

variable {T : Type} [DecidableEq T]

/-- `hasNext()`: counter match and a non-`NULL` cursor. -/
def hasNext (l : LList T) (it : Iterator T) : Bool :=
  if it.countSelf ≠ l.count then false
  else
    match it.curs with
    | none => false
    | some _ => true

/-- `getNext()`: the illegal sentinel without movement when `hasNext()`
fails; otherwise returns the cursor node's element, records its index in
`rindex_`, and advances the cursor to its successor (`NULL` when the cursor
was `last_`, i.e. at the final position). -/
def getNext (l : LList T) (it : Iterator T) : T × Iterator T :=
  if hasNext l it then
    match it.curs with
    | some p =>
      (l.elems.getD p l.illegal,
        { it with
          curs := if p = l.elems.length - 1 then none else some (p + 1),
          rindex := (p : Int) })
    | none => (l.illegal, it)
  else (l.illegal, it)

/-- `hasPrevious()`: the counter and `last_ == NULL` checks, then the test
whether the cursor node's `previous` is `last_` (the ring predecessor of
the node at position `p` is the node at `p - 1`, the predecessor of the
head being `last_` itself).  The source dereferences `curs_` here without a
`NULL` check: the `none` cursor case is that null dereference, modelled as
`none`. -/
def hasPrevious (l : LList T) (it : Iterator T) : Option Bool :=
  if it.countSelf ≠ l.count then some false
  else if l.elems.isEmpty then some false
  else
    match it.curs with
    | none => none
    | some p =>
      let prevPos : Nat := if p = 0 then l.elems.length - 1 else p - 1
      if prevPos = l.elems.length - 1 then some false else some true

/-- `getPrevious()`: the illegal sentinel without movement when
`hasPrevious()` is `false`; on success moves the cursor backwards
(`curs_ == NULL ? last_ : curs_->getPrevious()`), records the new cursor's
index in `rindex_`, and returns its element.  `none` propagates the null
dereference inside `hasPrevious()`. -/
def getPrevious (l : LList T) (it : Iterator T) : Option (T × Iterator T) :=
  match hasPrevious l it with
  | none => none
  | some false => some (l.illegal, it)
  | some true =>
    let newP : Nat :=
      match it.curs with
      | none => l.elems.length - 1
      | some p => if p = 0 then l.elems.length - 1 else p - 1
    some (l.elems.getD newP l.illegal, { it with curs := some newP, rindex := (newP : Int) })

/-- `getNextIndex()`: `hasNext() ? curs_->getIndex() : list_.getLength()`
(the cursor is non-`NULL` whenever `hasNext()` holds, so the dereference is
safe). -/
def getNextIndex (l : LList T) (it : Iterator T) : Int :=
  if hasNext l it then
    match it.curs with
    | some p => (p : Int)
    | none => l.getLength
  else l.getLength

/-- `getPreviousIndex()`: `-1` when `hasPrevious()` is `false`, else
`curs_ == NULL ? last_->getIndex() : curs_->getPrevious()->getIndex()`.
`none` propagates the null dereference inside `hasPrevious()`. -/
def getPreviousIndex (l : LList T) (it : Iterator T) : Option Int :=
  match hasPrevious l it with
  | none => none
  | some false => some (-1)
  | some true =>
    some
      (match it.curs with
        | none => (l.elems.length : Int) - 1
        | some p => if p = 0 then (l.elems.length : Int) - 1 else ((p : Int) - 1))

/-- `Iterator::add(element)`: fails on a stale counter; otherwise performs
`list_.add(getNextIndex(), element)` and on success increments the private
counter copy and invalidates `rindex_`.  The cursor pointer itself is
untouched; since the new node is spliced in at the cursor's position, the
cursor node's position in traversal order grows by one. -/
def add (l : LList T) (it : Iterator T) (allocOk : Bool) (e : T) :
    Bool × LList T × Iterator T :=
  if it.countSelf ≠ l.count then (false, l, it)
  else
    match l.addAt allocOk (getNextIndex l it) e with
    | (lr, false) => (false, lr, it)
    | (lr, true) =>
      (true, lr,
        { countSelf := it.countSelf + 1,
          curs := match it.curs with
            | none => none
            | some p => some (p + 1),
          rindex := ILLEGAL_INDEX })

/-- `Iterator::remove()`: fails on a stale counter or an invalid `rindex_`;
then reads `curs_->getIndex()` — a null dereference when the cursor is
`NULL`, modelled as `none`.  Otherwise the repositioned cursor is the old
cursor when its index differs from `rindex_`, else the old cursor's
successor (`NULL` when the cursor was `last_`); `list_.remove(rindex_)` is
performed, and on success the private counter copy grows, `rindex_` is
invalidated, and the kept cursor node's position in traversal order drops
by one when the removed position was before it. -/
def remove (l : LList T) (it : Iterator T) :
    Option (Bool × LList T × Iterator T) :=
  if it.countSelf ≠ l.count then some (false, l, it)
  else if it.rindex = ILLEGAL_INDEX then some (false, l, it)
  else
    match it.curs with
    | none => none
    | some p =>
      let cursNew : Option Nat :=
        if (p : Int) ≠ it.rindex then some p
        else if p ≠ l.elems.length - 1 then some (p + 1)
        else none
      match l.remove it.rindex with
      | (lr, false) => some (false, lr, it)
      | (lr, true) =>
        some (true, lr,
          { countSelf := it.countSelf + 1,
            curs := match cursNew with
              | none => none
              | some q => if it.rindex < (q : Int) then some (q - 1) else some q,
            rindex := ILLEGAL_INDEX })

end Iterator

variable {T : Type} [DecidableEq T]

/-- The one-element list `[10]` of the null-cursor scenarios. -/
def nds0 : LList Int := ((mkLinkedList (0 : Int)).add true 10).1

/-- The iterator obtained at index 0 over `nds0`. -/
def ndIt0 : Iterator Int := { countSelf := 1, curs := some 0, rindex := ILLEGAL_INDEX }

/-- The iterator over `nds0` after `getNext()` returned the tail element:
past-the-end cursor with a valid last-returned index. -/
def ndIt1 : Iterator Int := { countSelf := 1, curs := none, rindex := 0 }

/-! Call sequences of mutating list operations. -/

/-- The mutating list calls of a test sequence (`add` with one or two
arguments, the removals by index, by element, of the first and of the last
element, and the queue head removal `remove()`); each `add` records whether
its node allocation succeeds. -/
inductive Op (T : Type) where
  | add (allocOk : Bool) (e : T)
  | addAt (allocOk : Bool) (index : Int) (e : T)
  | removeAt (index : Int)
  | removeElem (e : T)
  | removeFirst
  | removeLast
  | removeHead
deriving Repr, DecidableEq

/-- Whether an operation is one of the two `add` overloads. -/
def Op.isAdd {T : Type} : Op T → Bool
  | .add _ _ => true
  | .addAt _ _ _ => true
  | _ => false

/-- Performing one call on the list, with its boolean result. -/
def LList.applyOp (l : LList T) : Op T → LList T × Bool
  | .add ok e => l.add ok e
  | .addAt ok i e => l.addAt ok i e
  | .removeAt i => l.remove i
  | .removeElem e => l.removeElement e
  | .removeFirst => l.removeFirst
  | .removeLast => l.removeLast
  | .removeHead => l.removeHead

/-- Performing a whole call sequence. -/
def LList.run (l : LList T) : List (Op T) → LList T
  | [] => l
  | op :: ops => LList.run (l.applyOp op).1 ops

/-- Number of `add` calls of the sequence that return `true`. -/
def LList.succAdds (l : LList T) : List (Op T) → Int
  | [] => 0
  | op :: ops =>
    (if op.isAdd ∧ (l.applyOp op).2 then 1 else 0) +
      LList.succAdds (l.applyOp op).1 ops

/-- Number of remove calls of the sequence that return `true`. -/
def LList.succRemoves (l : LList T) : List (Op T) → Int
  | [] => 0
  | op :: ops =>
    (if ¬op.isAdd ∧ (l.applyOp op).2 then 1 else 0) +
      LList.succRemoves (l.applyOp op).1 ops

/-- The list `[1, 2, 3, 2]` with duplicates for the C7 witness. -/
def c7l : LList Int :=
  { constructed := true, elems := [1, 2, 3, 2], count := 0, illegal := -1 }

/-- The concrete call sequence of the C2 witness. -/
def c2ops : List (Op Int) :=
  [Op.add true 5, Op.add true 6, Op.addAt true 5 7, Op.removeFirst,
   Op.removeElem 9, Op.add false 8]

/-- The stale iterator of the C3 witness: its counter copy 0 differs from
the counter 1 of `nds0`. -/
def c3it : Iterator Int := { countSelf := 0, curs := some 0, rindex := ILLEGAL_INDEX }

/-- The two-element list `[15, 20]` of the C8 witness. -/
def c8l : LList Int := (((mkLinkedList (-1 : Int)).add true 15).1.add true 20).1

/-- The iterator of the C8 witness positioned at index 1 of `c8l`. -/
def c8it : Iterator Int := { countSelf := 2, curs := some 1, rindex := ILLEGAL_INDEX }

/-- The iterator of the C8 witness positioned at the beginning of `c8l`. -/
def c8it0 : Iterator Int := { countSelf := 2, curs := some 0, rindex := ILLEGAL_INDEX }

/-- The claim C1 scenario: the empty constructed list. -/
def c1s0 : LList Int := mkLinkedList (-1)

/-- The claim C1 scenario after `add(10)`. -/
def c1s1 : LList Int := (c1s0.add true 10).1

/-- The claim C1 scenario after `add(10)`, `add(20)`. -/
def c1s2 : LList Int := (c1s1.add true 20).1

/-- The claim C1 scenario after `add(10)`, `add(20)`, `add(1, 15)`. -/
def c1s3 : LList Int := (c1s2.addAt true 1 15).1

/-- The claim C1 scenario after the subsequent `remove(0)`. -/
def c1s4 : LList Int := (c1s3.remove 0).1

/-- C9 fails on the code: over the non-empty list `[10]`, the iterator
obtained at index 0 reaches, after one `getNext()`, a state whose counter
check passes and whose cursor is `NULL`; `hasPrevious()` then dereferences
the `NULL` cursor (`curs_->getPrevious()`), modelled by the `none` result —
the `none` branch of the cursor access is reachable. -/
theorem c9_hasPrevious_null_cursor :
    getListIterator nds0 0 = some ndIt0 ∧
    Iterator.getNext nds0 ndIt0 = (10, ndIt1) ∧
    ndIt1.countSelf = nds0.count ∧ ndIt1.curs = none ∧ nds0.elems ≠ [] ∧
    Iterator.hasPrevious nds0 ndIt1 = none := by
  decide

/-- C4 fails on the code in the same reachable state: the counter check and
the `rindex_` check both pass, yet `remove()` dereferences the `NULL`
cursor at `curs_->getIndex()` (modelled by the `none` result) instead of
removing the element at the last-returned index 0. -/
theorem c4_remove_null_cursor :
    getListIterator nds0 0 = some ndIt0 ∧
    Iterator.getNext nds0 ndIt0 = (10, ndIt1) ∧
    ndIt1.countSelf = nds0.count ∧ ndIt1.rindex ≠ ILLEGAL_INDEX ∧
    Iterator.remove nds0 ndIt1 = none := by
  decide

/-! Basic facts about the list operations. -/

variable {T : Type} [DecidableEq T]

/-- The derived length equals the number of ring entries. -/
theorem LList.getLength_eq (l : LList T) : l.getLength = (l.elems.length : Int) := by
  cases h : l.elems with
  | nil => simp [LList.getLength, h]
  | cons x xs => simp [LList.getLength, h]

/-- Closed description of the index lookup. -/
theorem LList.getNodeByIndex_def (l : LList T) (i : Int) :
    l.getNodeByIndex i =
      if 0 ≤ i ∧ i < (l.elems.length : Int) then some i.toNat else none := by
  simp [LList.getNodeByIndex, LList.isIndex, LList.getLength_eq]

/-- The element scan finds the first occurrence: its result splits the list
at the leftmost copy of the element. -/
theorem LList.findNodeIdx_of_mem {e : T} {xs : List T} (h : e ∈ xs) :
    ∃ n pre post, LList.findNodeIdx e xs = some n ∧ xs = pre ++ e :: post ∧
      e ∉ pre ∧ pre.length = n ∧ xs.eraseIdx n = pre ++ post := by
  induction xs with
  | nil => cases h
  | cons x xs ih =>
    by_cases hx : e = x
    · refine ⟨0, [], xs, ?_, ?_, ?_, rfl, rfl⟩
      · simp [LList.findNodeIdx, hx]
      · simp [hx]
      · simp
    · have hmem : e ∈ xs := by
        rcases List.mem_cons.mp h with h1 | h1
        · exact absurd h1 hx
        · exact h1
      obtain ⟨n, pre, post, h1, h2, h3, h4, h5⟩ := ih hmem
      refine ⟨n + 1, x :: pre, post, ?_, ?_, ?_, ?_, ?_⟩
      · simp [LList.findNodeIdx, hx, h1]
      · simp [h2]
      · simp [hx, h3]
      · simp [h4]
      · simp [List.eraseIdx, h5]

/-- The element scan fails exactly on absent elements. -/
theorem LList.findNodeIdx_of_not_mem {e : T} {xs : List T} (h : e ∉ xs) :
    LList.findNodeIdx e xs = none := by
  induction xs with
  | nil => rfl
  | cons x xs ih =>
    have h1 : e ≠ x := fun he => h (by simp [he])
    have h2 : e ∉ xs := fun he => h (by simp [he])
    simp [LList.findNodeIdx, h1, ih h2]

/-- `addNode` on an in-bounds index with a successful allocation: the ring
gains the element at the requested position and the counter grows. -/
theorem LList.addNode_success (l : LList T) (allocOk : Bool) (i : Int) (e : T)
    (hb : l.isIndexOutOfBounds i = false) (ha : allocOk = true) :
    l.addNode allocOk i e =
      ({ l with elems := l.elems.insertIdx i.toNat e, count := l.count + 1 }, true) := by
  subst ha
  have hb2 : 0 ≤ i ∧ i ≤ (l.elems.length : Int) := by
    have h := of_decide_eq_false hb
    push_neg at h
    rw [LList.getLength_eq] at h
    exact ⟨h.1, h.2⟩
  unfold LList.addNode
  rw [hb]
  cases hel : l.elems with
  | nil =>
    have hi0 : i = 0 := by
      rw [hel] at hb2
      simp at hb2
      omega
    simp [hi0]
  | cons x xs =>
    have hlen : (l.elems.length : Int) = (xs.length : Int) + 1 := by
      rw [hel]
      simp
    by_cases hpos : 0 < i
    · have hcond : 0 ≤ i - 1 ∧ i - 1 < (l.elems.length : Int) := by omega
      have hnode : l.getNodeByIndex (i - 1) = some (i - 1).toNat := by
        rw [LList.getNodeByIndex_def, if_pos hcond]
      simp [hpos, hnode, hel]
    · have hi0 : i = 0 := by omega
      have hcond : 0 ≤ (0 : Int) ∧ (0 : Int) < (l.elems.length : Int) := by omega
      have hnode : l.getNodeByIndex 0 = some 0 := by
        rw [LList.getNodeByIndex_def, if_pos hcond]
        rfl
      simp [hpos, hnode, hel, hi0]

/-- `addNode` on an out-of-bounds index: failure without mutation. -/
theorem LList.addNode_out_of_bounds (l : LList T) (allocOk : Bool) (i : Int) (e : T)
    (hb : l.isIndexOutOfBounds i = true) :
    l.addNode allocOk i e = (l, false) := by
  unfold LList.addNode
  rw [hb]
  simp

/-- `addNode` on a failed node allocation: failure without mutation. -/
theorem LList.addNode_alloc_fail (l : LList T) (i : Int) (e : T)
    (hb : l.isIndexOutOfBounds i = false) :
    l.addNode false i e = (l, false) := by
  unfold LList.addNode
  rw [hb]
  simp

/-- Closed description of `remove(index)` on a constructed list. -/
theorem LList.remove_def (l : LList T) (i : Int) (hc : l.constructed = true) :
    l.remove i =
      if 0 ≤ i ∧ i < (l.elems.length : Int) then
        ({ l with elems := l.elems.eraseIdx i.toNat, count := l.count + 1 }, true)
      else (l, false) := by
  unfold LList.remove
  rw [hc, LList.getNodeByIndex_def]
  by_cases h : 0 ≤ i ∧ i < (l.elems.length : Int)
  · rw [if_pos h, if_pos h]
    simp [LList.removeNode, hc]
  · rw [if_neg h, if_neg h]
    simp [LList.removeNode]

/-- C5: `get(i)` returns the element at logical position `i` when
`0 <= i < getLength()` on a constructed list, and the configured illegal
sentinel whenever `i` is out of that range or the list is not constructed;
`getFirst()`, `getLast()` and `peek()` are `get` at the boundary positions
(all these accessors are pure reads of the state). -/
theorem c5_get_total (l : LList T) (i : Int) :
    ((l.constructed = true ∧ 0 ≤ i ∧ i < l.getLength) →
      ∃ h : i.toNat < l.elems.length, l.get i = l.elems.get ⟨i.toNat, h⟩) ∧
    ((l.constructed = false ∨ i < 0 ∨ l.getLength ≤ i) → l.get i = l.illegal) ∧
    l.getFirst = l.get 0 ∧ l.getLast = l.get (l.getLength - 1) ∧ l.peek = l.get 0 := by
  refine ⟨?_, ?_, rfl, rfl, rfl⟩
  · rintro ⟨hc, h0, h1⟩
    rw [LList.getLength_eq] at h1
    have hlt : i.toNat < l.elems.length := by omega
    have hcond : 0 ≤ i ∧ i < (l.elems.length : Int) := ⟨h0, h1⟩
    have hget : l.get i = l.elems.getD i.toNat l.illegal := by
      unfold LList.get
      rw [hc, LList.getNodeByIndex_def, if_pos hcond]
      simp
    refine ⟨hlt, ?_⟩
    rw [hget, List.getD_eq_getElem l.elems l.illegal hlt]
    simp [List.get_eq_getElem]
  · intro h
    cases hcon : l.constructed with
    | false => simp [LList.get, hcon]
    | true =>
      have hP : ¬(0 ≤ i ∧ i < (l.elems.length : Int)) := by
        rcases h with hc2 | h2 | h2
        · rw [hcon] at hc2
          exact absurd hc2 (by simp)
        · omega
        · rw [LList.getLength_eq] at h2
          omega
      simp [LList.get, hcon, LList.getNodeByIndex_def, hP]

/-- C6: on a constructed list, `add(index, element)` fails exactly when the
index is outside `[0, getLength()]` or the node allocation fails; a failed
call leaves the list unchanged, and a successful first insertion into an
empty list makes the new node the single (hence last) entry. -/
theorem c6_add_bounds (l : LList T) (allocOk : Bool) (i : Int) (e : T)
    (hc : l.constructed = true) :
    ((l.addAt allocOk i e).2 = false ↔
      (l.isIndexOutOfBounds i = true ∨ allocOk = false)) ∧
    ((l.addAt allocOk i e).2 = false → (l.addAt allocOk i e).1 = l) ∧
    (l.elems = [] → (l.addAt allocOk i e).2 = true →
      (l.addAt allocOk i e).1.elems = [e]) := by
  have haddAt : l.addAt allocOk i e = l.addNode allocOk i e := by
    simp [LList.addAt, hc]
  rw [haddAt]
  cases hb : l.isIndexOutOfBounds i with
  | true =>
    rw [LList.addNode_out_of_bounds l allocOk i e hb]
    simp [hb]
  | false =>
    cases ha : allocOk with
    | false =>
      rw [LList.addNode_alloc_fail l i e hb]
      simp [hb]
    | true =>
      rw [LList.addNode_success l true i e hb rfl]
      refine ⟨by simp [hb], by simp, ?_⟩
      intro hel _
      have hi0 : i = 0 := by
        have h := of_decide_eq_false hb
        push_neg at h
        rw [LList.getLength_eq, hel] at h
        simp at h
        omega
      simp [hel, hi0]

/-- C7: on a constructed list containing the value, `removeElement`
succeeds and removes exactly the leftmost occurrence, keeping every later
duplicate and all other elements in order; on an absent value it fails and
leaves the list unchanged. -/
theorem c7_removeElement_first_occurrence (l : LList T) (v : T)
    (hc : l.constructed = true) :
    ((v ∈ l.elems) →
      (l.removeElement v).2 = true ∧
      (l.removeElement v).1.count = l.count + 1 ∧
      ∃ pre post, l.elems = pre ++ v :: post ∧ v ∉ pre ∧
        (l.removeElement v).1.elems = pre ++ post) ∧
    ((v ∉ l.elems) → l.removeElement v = (l, false)) := by
  constructor
  · intro hmem
    obtain ⟨n, pre, post, h1, h2, h3, h4, h5⟩ := LList.findNodeIdx_of_mem hmem
    have hne : l.elems ≠ [] := by
      intro h0
      rw [h0] at hmem
      cases hmem
    have hlen : l.getLength ≠ 0 := by
      rw [LList.getLength_eq]
      simpa using fun h0 => hne (List.length_eq_zero.mp h0)
    have hgnbe : l.getNodeByElement v = some n := by
      unfold LList.getNodeByElement
      rw [if_neg hlen, h1]
    unfold LList.removeElement
    rw [hc, hgnbe]
    refine ⟨rfl, rfl, pre, post, h2, h3, ?_⟩
    simpa using h5
  · intro hmem
    have hnone : l.getNodeByElement v = none := by
      unfold LList.getNodeByElement
      split
      · rfl
      · exact LList.findNodeIdx_of_not_mem hmem
    unfold LList.removeElement
    rw [hc, hnone]
    rfl

/-- Witness for C5 over the list `[10]`: in-bounds access returns the
stored element, out-of-bounds access returns the sentinel. -/
theorem c5_get_total_witness :
    (∃ h : (0 : Int).toNat < nds0.elems.length,
        nds0.get 0 = nds0.elems.get ⟨(0 : Int).toNat, h⟩) ∧
    nds0.get 5 = nds0.illegal :=
  ⟨(c5_get_total nds0 0).1 (by decide),
   (c5_get_total nds0 5).2.1 (by decide)⟩

/-- Witness for C6 over the list `[10]` at the out-of-bounds index 5. -/
theorem c6_add_bounds_witness :
    ((nds0.addAt true 5 7).2 = false ↔
      (nds0.isIndexOutOfBounds 5 = true ∨ true = false)) ∧
    ((nds0.addAt true 5 7).2 = false → (nds0.addAt true 5 7).1 = nds0) ∧
    (nds0.elems = [] → (nds0.addAt true 5 7).2 = true →
      (nds0.addAt true 5 7).1.elems = [7]) :=
  c6_add_bounds nds0 true 5 7 (by decide)


/-- Witness for C7 over `[1, 2, 3, 2]` removing the value 2. -/
theorem c7_removeElement_first_occurrence_witness :
    ((2 ∈ c7l.elems) →
      (c7l.removeElement 2).2 = true ∧
      (c7l.removeElement 2).1.count = c7l.count + 1 ∧
      ∃ pre post, c7l.elems = pre ++ 2 :: post ∧ (2 : Int) ∉ pre ∧
        (c7l.removeElement 2).1.elems = pre ++ post) ∧
    (((2 : Int) ∉ c7l.elems) → c7l.removeElement 2 = (c7l, false)) :=
  c7_removeElement_first_occurrence c7l 2 (by decide)


/-- The element scan only returns positions inside the list. -/
theorem LList.findNodeIdx_lt_length {e : T} {xs : List T} {n : Nat}
    (h : LList.findNodeIdx e xs = some n) : n < xs.length := by
  induction xs generalizing n with
  | nil => cases h
  | cons x xs ih =>
    unfold LList.findNodeIdx at h
    by_cases hx : e = x
    · rw [if_pos hx] at h
      cases h
      simp
    · rw [if_neg hx] at h
      cases hfe : LList.findNodeIdx e xs with
      | none =>
        rw [hfe] at h
        cases h
      | some m =>
        rw [hfe] at h
        simp at h
        have hm := ih hfe
        simp
        omega

/-- One `addNode` call: a success grows the ring by one entry and the
counter by one; a failure leaves the state untouched. -/
theorem LList.addNode_step (l : LList T) (allocOk : Bool) (i : Int) (e : T) :
    ((l.addNode allocOk i e).2 = true →
      ((l.addNode allocOk i e).1.elems.length : Int) = (l.elems.length : Int) + 1 ∧
      (l.addNode allocOk i e).1.count = l.count + 1) ∧
    ((l.addNode allocOk i e).2 = false → (l.addNode allocOk i e).1 = l) := by
  cases hb : l.isIndexOutOfBounds i with
  | true =>
    rw [LList.addNode_out_of_bounds l allocOk i e hb]
    simp
  | false =>
    cases ha : allocOk with
    | false =>
      rw [LList.addNode_alloc_fail l i e hb]
      simp
    | true =>
      rw [LList.addNode_success l true i e hb rfl]
      refine ⟨fun _ => ⟨?_, rfl⟩, by simp⟩
      have hle : i.toNat ≤ l.elems.length := by
        have h := of_decide_eq_false hb
        push_neg at h
        rw [LList.getLength_eq] at h
        omega
      have h2 : (l.elems.insertIdx i.toNat e).length = l.elems.length + 1 :=
        List.length_insertIdx i.toNat l.elems hle
      show ((l.elems.insertIdx i.toNat e).length : Int) = (l.elems.length : Int) + 1
      omega

/-- One `add(element)` call, same bookkeeping. -/
theorem LList.add_step (l : LList T) (allocOk : Bool) (e : T) :
    ((l.add allocOk e).2 = true →
      ((l.add allocOk e).1.elems.length : Int) = (l.elems.length : Int) + 1 ∧
      (l.add allocOk e).1.count = l.count + 1) ∧
    ((l.add allocOk e).2 = false → (l.add allocOk e).1 = l) := by
  cases hcon : l.constructed with
  | false => simp [LList.add, hcon]
  | true =>
    have h : l.add allocOk e = l.addNode allocOk l.getLength e := by
      simp [LList.add, hcon]
    rw [h]
    exact LList.addNode_step l allocOk l.getLength e

/-- One `add(index, element)` call, same bookkeeping. -/
theorem LList.addAt_step (l : LList T) (allocOk : Bool) (i : Int) (e : T) :
    ((l.addAt allocOk i e).2 = true →
      ((l.addAt allocOk i e).1.elems.length : Int) = (l.elems.length : Int) + 1 ∧
      (l.addAt allocOk i e).1.count = l.count + 1) ∧
    ((l.addAt allocOk i e).2 = false → (l.addAt allocOk i e).1 = l) := by
  cases hcon : l.constructed with
  | false => simp [LList.addAt, hcon]
  | true =>
    have h : l.addAt allocOk i e = l.addNode allocOk i e := by
      simp [LList.addAt, hcon]
    rw [h]
    exact LList.addNode_step l allocOk i e

/-- One `remove(index)` call: a success shrinks the ring by one entry and
grows the counter by one; a failure leaves the state untouched. -/
theorem LList.remove_step (l : LList T) (i : Int) :
    ((l.remove i).2 = true →
      ((l.remove i).1.elems.length : Int) = (l.elems.length : Int) - 1 ∧
      (l.remove i).1.count = l.count + 1) ∧
    ((l.remove i).2 = false → (l.remove i).1 = l) := by
  cases hcon : l.constructed with
  | false => simp [LList.remove, hcon]
  | true =>
    rw [LList.remove_def l i hcon]
    by_cases h : 0 ≤ i ∧ i < (l.elems.length : Int)
    · rw [if_pos h]
      refine ⟨fun _ => ⟨?_, rfl⟩, by simp⟩
      have hlt : i.toNat < l.elems.length := by omega
      have h2 := List.length_eraseIdx_add_one hlt
      show ((l.elems.eraseIdx i.toNat).length : Int) = (l.elems.length : Int) - 1
      omega
    · rw [if_neg h]
      simp

/-- One `removeElement(element)` call, same bookkeeping. -/
theorem LList.removeElement_step (l : LList T) (e : T) :
    ((l.removeElement e).2 = true →
      ((l.removeElement e).1.elems.length : Int) = (l.elems.length : Int) - 1 ∧
      (l.removeElement e).1.count = l.count + 1) ∧
    ((l.removeElement e).2 = false → (l.removeElement e).1 = l) := by
  cases hcon : l.constructed with
  | false => simp [LList.removeElement, hcon]
  | true =>
    cases hg : l.getNodeByElement e with
    | none => simp [LList.removeElement, hcon, hg, LList.removeNode]
    | some p =>
      have hp : p < l.elems.length := by
        unfold LList.getNodeByElement at hg
        by_cases h0 : l.getLength = 0
        · rw [if_pos h0] at hg
          cases hg
        · rw [if_neg h0] at hg
          exact LList.findNodeIdx_lt_length hg
      have hrm : l.removeElement e =
          ({ l with elems := l.elems.eraseIdx p, count := l.count + 1 }, true) := by
        simp [LList.removeElement, hcon, hg, LList.removeNode]
      rw [hrm]
      refine ⟨fun _ => ⟨?_, rfl⟩, by simp⟩
      have h2 := List.length_eraseIdx_add_one hp
      show ((l.elems.eraseIdx p).length : Int) = (l.elems.length : Int) - 1
      omega

/-- One arbitrary call of the sequence alphabet: a success changes the
length by the sign of the operation and the counter by one; a failure
leaves the state untouched. -/
theorem LList.applyOp_step (l : LList T) (op : Op T) :
    ((l.applyOp op).2 = true →
      ((l.applyOp op).1.elems.length : Int) =
        (l.elems.length : Int) + (if op.isAdd then 1 else -1) ∧
      (l.applyOp op).1.count = l.count + 1) ∧
    ((l.applyOp op).2 = false → (l.applyOp op).1 = l) := by
  cases op with
  | add ok e => exact LList.add_step l ok e
  | addAt ok i e => exact LList.addAt_step l ok i e
  | removeAt i => exact LList.remove_step l i
  | removeElem e => exact LList.removeElement_step l e
  | removeFirst => exact LList.remove_step l 0
  | removeLast => exact LList.remove_step l (l.getLength - 1)
  | removeHead => exact LList.remove_step l 0

/-- Length bookkeeping over a whole call sequence. -/
theorem LList.run_length (l : LList T) (ops : List (Op T)) :
    ((LList.run l ops).elems.length : Int) =
      (l.elems.length : Int) + LList.succAdds l ops - LList.succRemoves l ops := by
  induction ops generalizing l with
  | nil => simp [LList.run, LList.succAdds, LList.succRemoves]
  | cons op ops ih =>
    simp only [LList.run, LList.succAdds, LList.succRemoves]
    rw [ih]
    have hstep := LList.applyOp_step l op
    cases hres : (l.applyOp op).2 with
    | true =>
      obtain ⟨h1, _⟩ := hstep.1 hres
      cases hadd : op.isAdd with
      | true =>
        rw [hadd] at h1
        simp only [hres, hadd] at h1 ⊢
        simp at h1 ⊢
        omega
      | false =>
        rw [hadd] at h1
        simp only [hres, hadd] at h1 ⊢
        simp at h1 ⊢
        omega
    | false =>
      rw [hstep.2 hres]
      simp [hres]

/-- The change counter never decreases along a call sequence. -/
theorem LList.run_count_mono (l : LList T) (ops : List (Op T)) :
    l.count ≤ (LList.run l ops).count := by
  induction ops generalizing l with
  | nil => simp [LList.run]
  | cons op ops ih =>
    simp only [LList.run]
    have hstep := LList.applyOp_step l op
    cases hres : (l.applyOp op).2 with
    | true =>
      have h2 := (hstep.1 hres).2
      have h3 := ih (l.applyOp op).1
      omega
    | false =>
      rw [hstep.2 hres]
      exact ih l

/-- C2: starting from a freshly constructed (hence empty) list, after any
finite sequence of `add`/`remove` calls `getLength()` equals the number of
those `add` calls that returned `true` minus the number of those remove
calls that returned `true`. -/
theorem c2_length_counts_successes (l : LList T) (ops : List (Op T))
    (hc : l.constructed = true) (he : l.elems = []) :
    (LList.run l ops).getLength = LList.succAdds l ops - LList.succRemoves l ops := by
  rw [LList.getLength_eq, LList.run_length, he]
  simp


/-- Witness for C2 at a concrete call sequence (two successful adds, one
failed out-of-bounds add, one successful and one failed removal). -/
theorem c2_length_counts_successes_witness :
    (LList.run (mkLinkedList (0 : Int)) c2ops).getLength =
      LList.succAdds (mkLinkedList (0 : Int)) c2ops -
        LList.succRemoves (mkLinkedList (0 : Int)) c2ops :=
  c2_length_counts_successes (mkLinkedList (0 : Int)) c2ops rfl rfl

/-- C10: the change counter `count_` grows by exactly one on every
successful `addNode` and `removeNode` call (the first insertion into an
empty list included), is untouched by every failed mutation (read
accessors are pure functions of the state and touch nothing), and is
therefore monotonically non-decreasing over any sequence of list calls. -/
theorem c10_mutation_counter :
    (∀ (l : LList T) (allocOk : Bool) (i : Int) (e : T),
      ((l.addNode allocOk i e).2 = true →
        (l.addNode allocOk i e).1.count = l.count + 1) ∧
      ((l.addNode allocOk i e).2 = false → (l.addNode allocOk i e).1 = l)) ∧
    (∀ (l : LList T) (node : Option Nat),
      ((l.removeNode node).2 = true → (l.removeNode node).1.count = l.count + 1) ∧
      ((l.removeNode node).2 = false → (l.removeNode node).1 = l)) ∧
    (∀ (l : LList T) (op : Op T),
      ((l.applyOp op).2 = true → (l.applyOp op).1.count = l.count + 1) ∧
      ((l.applyOp op).2 = false → (l.applyOp op).1 = l)) ∧
    (∀ (l : LList T) (ops : List (Op T)), l.count ≤ (LList.run l ops).count) := by
  refine ⟨?_, ?_, ?_, ?_⟩
  · intro l allocOk i e
    have h := LList.addNode_step l allocOk i e
    exact ⟨fun hs => (h.1 hs).2, h.2⟩
  · intro l node
    cases node with
    | none => simp [LList.removeNode]
    | some p => simp [LList.removeNode]
  · intro l op
    have h := LList.applyOp_step l op
    exact ⟨fun hs => (h.1 hs).2, h.2⟩
  · intro l ops
    exact LList.run_count_mono l ops

/-- Witness for C10: the successful first insertion into a fresh empty list
bumps the counter from 0 to 1. -/
theorem c10_mutation_counter_witness :
    ((mkLinkedList (0 : Int)).addNode true 0 7).1.count =
      (mkLinkedList (0 : Int)).count + 1 :=
  (c10_mutation_counter.1 (mkLinkedList (0 : Int)) true 0 7).1 rfl

/-- C3: an iterator whose private counter no longer matches the list
counter fails on every operation — the traversal tests report `false`, the
traversal reads return the illegal sentinel without movement, the index
queries return their boundary sentinels, and the mutators return `false`
without touching the list or the iterator (so the staleness persists until
a fresh iterator is obtained) — and a successful direct `list.add(...)`
call after the iterator was obtained creates exactly this mismatch. -/
theorem c3_stale_iterator :
    (∀ (l : LList T) (it : Iterator T), it.countSelf ≠ l.count →
      Iterator.hasNext l it = false ∧
      Iterator.hasPrevious l it = some false ∧
      Iterator.getNext l it = (l.illegal, it) ∧
      Iterator.getPrevious l it = some (l.illegal, it) ∧
      Iterator.getNextIndex l it = l.getLength ∧
      Iterator.getPreviousIndex l it = some (-1) ∧
      (∀ (allocOk : Bool) (e : T), Iterator.add l it allocOk e = (false, l, it)) ∧
      Iterator.remove l it = some (false, l, it)) ∧
    (∀ (l : LList T) (it : Iterator T) (e : T),
      l.constructed = true → it.countSelf = l.count →
      (l.add true e).2 = true ∧ (l.add true e).1.count ≠ it.countSelf) := by
  constructor
  · intro l it hne
    refine ⟨?_, ?_, ?_, ?_, ?_, ?_, ?_, ?_⟩
    · simp [Iterator.hasNext, hne]
    · simp [Iterator.hasPrevious, hne]
    · simp [Iterator.getNext, Iterator.hasNext, hne]
    · simp [Iterator.getPrevious, Iterator.hasPrevious, hne]
    · simp [Iterator.getNextIndex, Iterator.hasNext, hne]
    · simp [Iterator.getPreviousIndex, Iterator.hasPrevious, hne]
    · intro allocOk e
      simp [Iterator.add, hne]
    · simp [Iterator.remove, hne]
  · intro l it e hc hsync
    have hb : l.isIndexOutOfBounds l.getLength = false := by
      have h : ¬(l.getLength < 0 ∨ l.getLength < l.getLength) := by
        rw [LList.getLength_eq]
        omega
      exact decide_eq_false h
    have hadd : l.add true e = l.addNode true l.getLength e := by
      simp [LList.add, hc]
    rw [hadd, LList.addNode_success l true l.getLength e hb rfl]
    refine ⟨rfl, ?_⟩
    show l.count + 1 ≠ it.countSelf
    omega


/-- Witness for C3: over the list `[10]` with counter 1, the stale iterator
fails `hasNext`/`remove`, and a direct successful `add` desynchronizes the
fresh iterator `ndIt0`. -/
theorem c3_stale_iterator_witness :
    Iterator.hasNext nds0 c3it = false ∧
    Iterator.remove nds0 c3it = some (false, nds0, c3it) ∧
    ((nds0.add true 9).2 = true ∧ (nds0.add true 9).1.count ≠ ndIt0.countSelf) :=
  ⟨(c3_stale_iterator.1 nds0 c3it (by decide)).1,
   (c3_stale_iterator.1 nds0 c3it (by decide)).2.2.2.2.2.2.2,
   c3_stale_iterator.2 nds0 ndIt0 9 (by decide) (by decide)⟩

/-- C8: `getNextIndex()` returns exactly the index `getNext()` records as
last-returned on success, and the list length at the end (`hasNext()`
false); `getPreviousIndex()` returns exactly the index `getPrevious()`
records on success, and `-1` when `hasPrevious()` reports `false` (the
beginning of the list); both queries are pure reads that move nothing, and
they fault (`none`) exactly where the corresponding traversal call
faults. -/
theorem c8_iterator_index_queries (l : LList T) (it : Iterator T) :
    (Iterator.hasNext l it = true →
      Iterator.getNextIndex l it = ((Iterator.getNext l it).2).rindex) ∧
    (Iterator.hasNext l it = false → Iterator.getNextIndex l it = l.getLength) ∧
    (Iterator.hasPrevious l it = some true →
      ∃ r, Iterator.getPrevious l it = some r ∧
        Iterator.getPreviousIndex l it = some r.2.rindex) ∧
    (Iterator.hasPrevious l it = some false →
      Iterator.getPreviousIndex l it = some (-1)) ∧
    (Iterator.hasPrevious l it = none →
      Iterator.getPreviousIndex l it = none ∧ Iterator.getPrevious l it = none) := by
  refine ⟨?_, ?_, ?_, ?_, ?_⟩
  · intro h
    cases hcurs : it.curs with
    | none =>
      exfalso
      unfold Iterator.hasNext at h
      rw [hcurs] at h
      by_cases hc : it.countSelf ≠ l.count
      · rw [if_pos hc] at h
        cases h
      · rw [if_neg hc] at h
        cases h
    | some p =>
      unfold Iterator.getNextIndex Iterator.getNext
      rw [if_pos h, if_pos h, hcurs]
  · intro h
    simp [Iterator.getNextIndex, h]
  · intro h
    have hemp : l.elems.isEmpty = false := by
      unfold Iterator.hasPrevious at h
      by_cases hc : it.countSelf ≠ l.count
      · rw [if_pos hc] at h
        cases h
      · by_cases he : l.elems.isEmpty
        · rw [if_neg hc, if_pos he] at h
          cases h
        · simpa using he
    have hlen : 1 ≤ l.elems.length := by
      cases hel : l.elems with
      | nil =>
        rw [hel] at hemp
        cases hemp
      | cons x xs => simp
    cases hcurs : it.curs with
    | none =>
      exfalso
      unfold Iterator.hasPrevious at h
      by_cases hc : it.countSelf ≠ l.count
      · rw [if_pos hc] at h
        cases h
      · rw [if_neg hc] at h
        by_cases he : l.elems.isEmpty
        · rw [if_pos he] at h
          cases h
        · rw [if_neg he, hcurs] at h
          cases h
    | some p =>
      unfold Iterator.getPrevious Iterator.getPreviousIndex
      rw [h, hcurs]
      refine ⟨_, rfl, ?_⟩
      by_cases hp : p = 0
      · simp [hp]
        omega
      · simp [hp]
        omega
  · intro h
    unfold Iterator.getPreviousIndex
    rw [h]
  · intro h
    unfold Iterator.getPreviousIndex Iterator.getPrevious
    rw [h]
    exact ⟨rfl, rfl⟩


/-- Witness for C8 over `[15, 20]`: at index 1 the next-index query equals
the index `getNext()` records, and at the beginning the previous-index
query returns `-1`. -/
theorem c8_iterator_index_queries_witness :
    Iterator.getNextIndex c8l c8it = ((Iterator.getNext c8l c8it).2).rindex ∧
    Iterator.getPreviousIndex c8l c8it0 = some (-1) :=
  ⟨(c8_iterator_index_queries c8l c8it).1 (by decide),
   (c8_iterator_index_queries c8l c8it0).2.2.2.1 (by decide)⟩


/-- C1: starting from an empty constructed list, after `add(10)`, `add(20)`,
`add(1, 15)` the observable sequence via `get` is `[10, 15, 20]` with
`getLength() == 3` and `getIndexOf(20) == 2`; a subsequent `remove(0)`
yields the sequence `[15, 20]` with `getLength() == 2` and
`getFirst() == 15`. -/
theorem c1_scenario :
    (c1s0.add true 10).2 = true ∧ (c1s1.add true 20).2 = true ∧
    (c1s2.addAt true 1 15).2 = true ∧
    c1s3.get 0 = 10 ∧ c1s3.get 1 = 15 ∧ c1s3.get 2 = 20 ∧
    c1s3.getLength = 3 ∧ c1s3.getIndexOf 20 = 2 ∧
    (c1s3.remove 0).2 = true ∧
    c1s4.get 0 = 15 ∧ c1s4.get 1 = 20 ∧
    c1s4.getLength = 2 ∧ c1s4.getFirst = 15 := by
  decide

end Eoos
